import Mathlib

/-!
Shallow embedding of `src/ocw/lib/EC2.py` (class `EC2(Provider)`).

The module wraps the AWS SDK (boto3).  External effects are modelled
abstractly:

* a boto3 handle (`boto3.client` / `boto3.resource`) is a record of the
  construction arguments plus a fresh allocation number `hid`, drawn from a
  counter `nextId` carried in the state -- so "constructs a new handle" is
  observable as an increment of the counter;
* the outcome of each `describe_regions()` network call inside
  `check_credentials` is a boolean oracle `probe : Nat → Bool` indexed by the
  call number (`true` = the call returns, `false` = it raises);
* vault renewal is an abstract function `renew : Creds → Creds`;
* `parse_image_name_helper` and `get_keeping_image_names` are defined in
  `Provider`, outside the embedded file, and are taken as parameters.

Python's `dict` (insertion ordered, unique keys) is an association list with
`List.lookup`; inserting a missing key appends at the end.
-/

/-- The vault credential object (`EC2Credential`): expiry flag, the two data
fields read via `getData`, and the namespace. -/
structure Creds where
  expired : Bool
  secretKey : String
  accessKey : String
  ns : String
deriving DecidableEq, Repr

/-- An abstract boto3 handle: the arguments it was built from plus a fresh
allocation number `hid`. -/
structure Handle where
  kind : String
  service : String
  key : Option String
  secret : Option String
  region : String
  hid : Nat
deriving DecidableEq, Repr

/-- The mutable per-instance state of an `EC2` object: `self.__key`,
`self.__secret`, the three per-region handle caches, the credential object and
the allocation counter for fresh handles. -/
structure EC2State where
  key : Option String
  secret : Option String
  ec2_resource : List (String × Handle)
  ec2_client : List (String × Handle)
  eks_client : List (String × Handle)
  creds : Creds
  nextId : Nat
deriving DecidableEq, Repr

/-- The default region of the source's keyword arguments
(`region='eu-central-1'`); Lean calls pass it explicitly. -/
def defaultRegion : String := "eu-central-1"

/-- Source `boto3.client(service, aws_access_key_id=key, aws_secret_access_key=secret,
region_name=region)`, allocating a fresh handle. -/
def boto3_client (service : String) (key secret : Option String) (region : String)
    (n : Nat) : Handle × Nat :=
  (⟨"client", service, key, secret, region, n⟩, n + 1)

/-- Source `boto3.resource('ec2', ...)`, allocating a fresh handle. -/
def boto3_resource (service : String) (key secret : Option String) (region : String)
    (n : Nat) : Handle × Nat :=
  (⟨"resource", service, key, secret, region, n⟩, n + 1)

/-- Source `EC2.ec2_resource(region)`: return the cached handle, else construct a
`boto3.resource('ec2', ...)` one and cache it. -/
def ec2_resource (s : EC2State) (region : String) : Handle × EC2State :=
  match s.ec2_resource.lookup region with
  | some h => (h, s)
  | none =>
    let (h, n) := boto3_resource "ec2" s.key s.secret region s.nextId
    (h, { s with ec2_resource := s.ec2_resource ++ [(region, h)], nextId := n })

/-- Source `EC2.ec2_client(region)`: return the cached handle, else construct a
`boto3.client('ec2', ...)` one and cache it. -/
def ec2_client (s : EC2State) (region : String) : Handle × EC2State :=
  match s.ec2_client.lookup region with
  | some h => (h, s)
  | none =>
    let (h, n) := boto3_client "ec2" s.key s.secret region s.nextId
    (h, { s with ec2_client := s.ec2_client ++ [(region, h)], nextId := n })

/-- Source `EC2.eks_client(region)`: return the cached handle, else construct a
`boto3.client('eks', ...)` one and cache it. -/
def eks_client (s : EC2State) (region : String) : Handle × EC2State :=
  match s.eks_client.lookup region with
  | some h => (h, s)
  | none =>
    let (h, n) := boto3_client "eks" s.key s.secret region s.nextId
    (h, { s with eks_client := s.eks_client ++ [(region, h)], nextId := n })

/-- One entry of the `describe_regions()` response (`{'RegionName': ...}`). -/
structure RegionInfo where
  RegionName : String
deriving DecidableEq, Repr

/-- The `describe_regions()` response (`{'Regions': [...]}`). -/
structure RegionsResp where
  Regions : List RegionInfo
deriving DecidableEq, Repr

/-- Source `EC2.all_regions`: the `RegionName` of every entry of the
`describe_regions()` response, in order.  The network call itself is the
`resp` argument; the `self.ec2_client()` caching effect is threaded by the
callers that need it. -/
def all_regions (resp : RegionsResp) : List String :=
  resp.Regions.map (fun r => r.RegionName)

/-- The `list_clusters()` response (`{'clusters': [...]}`). -/
structure ClustersResp where
  clusters : List String
deriving DecidableEq, Repr

/-- The loop body of `EC2.all_clusters`: for each region, acquire (and lazily
cache) the region's EKS client, call its `list_clusters()` (abstracted as
`listClusters region`, the response of that client) and append every cluster
of the response to the accumulator. -/
def all_clusters_loop (listClusters : String → ClustersResp) :
    List String → List String → EC2State → List String × EC2State
  | [], clusters, s => (clusters, s)
  | region :: rest, clusters, s =>
    let s1 := (eks_client s region).2
    all_clusters_loop listClusters rest (clusters ++ (listClusters region).clusters) s1

/-- Source `EC2.all_clusters`: iterate `all_clusters_loop` over the region list
returned by `all_regions`, starting from the empty cluster list. -/
def all_clusters (listClusters : String → ClustersResp) (regions : List String)
    (s : EC2State) : List String × EC2State :=
  all_clusters_loop listClusters regions [] s

/-- Source `EC2.delete_instance(instance_id)`: `filterQ` is the query
`self.ec2_resource().instances.filter(InstanceIds=[instance_id])` (a list of
matching instance identifiers).  If the list is non-empty, its first element
is terminated (returned as `some`); otherwise nothing is terminated and only a
warning is logged (`none`). -/
def delete_instance (filterQ : String → List String) (instance_id : String) :
    Option String :=
  let instances_list := filterQ instance_id
  if h : instances_list.length > 0 then some (instances_list.get ⟨0, h⟩)
  else none

/-- One entry of the `describe_images(Owners=['self'])` response. -/
structure AwsImg where
  Name : String
  CreationDate : String
  ImageId : String
deriving DecidableEq, Repr

/-- The record built by `Image(img['Name'], flavor=m['key'], build=m['build'],
date=parse(img['CreationDate']), img_id=img['ImageId'])` (class `Image` of
`Provider`; the `dateutil` parse is kept as the raw string). -/
structure Image where
  name : String
  flavor : String
  build : String
  date : String
  id : String
deriving DecidableEq, Repr

/-- The data `cleanup_all` reads from a successful `parse_image_name` match
object: `m['key']` and `m['build']`. -/
structure MatchInfo where
  key : String
  build : String
deriving DecidableEq, Repr

/-- The first loop of `EC2.cleanup_all`: for each image of the response, parse
its name; on success append the corresponding `Image` record, on failure only
log an error. `parse_image_name` (whose helper lives in `Provider`, outside the
embedded file) is the parameter `parse_image_name`. -/
def cleanup_images_loop (parse_image_name : String → Option MatchInfo) :
    List AwsImg → List Image → List Image
  | [], images => images
  | img :: rest, images =>
    match parse_image_name img.Name with
    | some m =>
        cleanup_images_loop parse_image_name rest
          (images ++ [⟨img.Name, m.key, m.build, img.CreationDate, img.ImageId⟩])
    | none => cleanup_images_loop parse_image_name rest images

/-- Source `EC2.cleanup_all`: build the parsed-image list from the
`describe_images(Owners=['self'])` response, ask `get_keeping_image_names`
(defined in `Provider`, here the parameter `get_keeping_image_names`) which
names to keep, and deregister every remaining image; the returned list is the
`ImageId`s passed to `deregister_image`, in order. -/
def cleanup_all (parse_image_name : String → Option MatchInfo)
    (get_keeping_image_names : List Image → List String)
    (response : List AwsImg) : List String :=
  let images := cleanup_images_loop parse_image_name response []
  let keep_images := get_keeping_image_names images
  (images.filter (fun i => !keep_images.contains i.name)).map (fun i => i.id)

/-- The expiry branch of `EC2.check_credentials`: when the credentials report
expired, renew them and clear `__key`, `__secret` and the three handle caches;
otherwise leave the state untouched. -/
def cc_expiry_step (renew : Creds → Creds) (s : EC2State) : EC2State :=
  if s.creds.expired then
    { s with creds := renew s.creds, key := none, secret := none,
             ec2_resource := [], ec2_client := [], eks_client := [] }
  else s

/-- The unconditional reads of `EC2.check_credentials`:
`self.__secret = self.__credentials.getData('secret_key')` and
`self.__key = self.__credentials.getData('access_key')`. -/
def cc_read_keys (s : EC2State) : EC2State :=
  { s with secret := some s.creds.secretKey, key := some s.creds.accessKey }

/-- Outcome of `EC2.check_credentials`: `return True` from inside the loop,
fall off the end (Python returns `None`), or the final unguarded
`self.all_regions()` raised. -/
inductive CCOut where
  | retTrue
  | retNone
  | raised
deriving DecidableEq, Repr

/-- Result of the probe loop: success inside the loop, or all attempts failed. -/
inductive LoopRes where
  | success (s : EC2State) (sleeps : Nat)
  | exhausted (s : EC2State) (sleeps : Nat)
deriving DecidableEq, Repr

/-- The `for i in range(1, 60 * 5)` loop of `EC2.check_credentials` over the
remaining attempt numbers.  Each attempt runs `self.all_regions()`, whose first
step `self.ec2_client()` lazily caches the default-region client (handle
construction is local and does not raise); `probe i` tells whether the
attempt's `describe_regions()` network call returns.  On success the method
returns `True`; on an exception it logs, sleeps one second (`sleeps` counts
the seconds slept) and retries. -/
def cc_loop (probe : Nat → Bool) :
    List Nat → EC2State → Nat → LoopRes
  | [], s, sleeps => .exhausted s sleeps
  | i :: rest, s, sleeps =>
    let s1 := (ec2_client s defaultRegion).2
    if probe i then .success s1 sleeps
    else cc_loop probe rest s1 (sleeps + 1)

/-- Source `EC2.check_credentials`: the expiry branch, the two `getData` reads, then
the probe loop over attempts `1..299` (`range(1, 60 * 5)`); if every attempt
failed, one final unguarded `self.all_regions()` (probe number 300) whose
exception, if any, propagates.  Returns the outcome, the final state and the
seconds slept. -/
def check_credentials (renew : Creds → Creds) (probe : Nat → Bool)
    (s : EC2State) : CCOut × EC2State × Nat :=
  match cc_loop probe (List.range' 1 299) (cc_read_keys (cc_expiry_step renew s)) 0 with
  | .success s1 sleeps => (.retTrue, s1, sleeps)
  | .exhausted s1 sleeps =>
    let s2 := (ec2_client s1 defaultRegion).2
    if probe 300 then (.retNone, s2, sleeps) else (.raised, s2, sleeps)

/-- The class-level `EC2.__instances` dictionary together with an allocation
counter: `object.__new__(cls)` yields a fresh object identity, modelled as the
counter value. -/
structure Registry where
  instances : List (String × Nat)
  nextInst : Nat
deriving DecidableEq, Repr

/-- Source `EC2.__new__(cls, vault_namespace)` restricted to object identity: if the
namespace is not yet in `__instances`, allocate a fresh object and cache it;
then return the cached object for the namespace.  (The
`check_credentials()` call made on the cached instance before returning
mutates only that instance's own state, never the registry, and is modelled
by `check_credentials` above.) -/
def EC2_new (reg : Registry) (vault_namespace : String) : Nat × Registry :=
  match reg.instances.lookup vault_namespace with
  | some i => (i, reg)
  | none =>
    (reg.nextInst,
     ⟨reg.instances ++ [(vault_namespace, reg.nextInst)], reg.nextInst + 1⟩)

/-- The state carried by a loop result. -/
def LoopRes.st : LoopRes → EC2State
  | .success s _ => s
  | .exhausted s _ => s

/-- The seconds slept so far carried by a loop result. -/
def LoopRes.slp : LoopRes → Nat
  | .success _ n => n
  | .exhausted _ n => n

/-- Well-formedness of the `__instances` registry: every cached identity is
below the allocation counter, and both namespaces and identities are
duplicate-free (Python guarantees this: dict keys are unique and
`object.__new__` yields distinct objects). -/
def Registry.Inv (reg : Registry) : Prop :=
  (∀ p ∈ reg.instances, p.2 < reg.nextInst) ∧
  (reg.instances.map Prod.fst).Nodup ∧
  (reg.instances.map Prod.snd).Nodup

/-- A sample unexpired credential object, for concrete instantiations. -/
def sampleCreds : Creds := ⟨false, "sk", "ak", "qac"⟩

/-- A sample fresh instance state (empty caches), for concrete
instantiations. -/
def sampleState : EC2State := ⟨none, none, [], [], [], sampleCreds, 0⟩

/-- A sample already-constructed default-region ec2 client handle. -/
def sampleHandle : Handle := ⟨"client", "ec2", some "ak", some "sk", "eu-central-1", 0⟩

/-- A sample state whose ec2-client cache already holds the default region. -/
def cachedState : EC2State :=
  ⟨some "ak", some "sk", [], [("eu-central-1", sampleHandle)], [], sampleCreds, 1⟩

/-! ### Association-list (Python dict) lemmas -/

theorem lookup_append_left {α β : Type} [BEq α] {l1 : List (α × β)}
    (l2 : List (α × β)) {a : α} {b : β} (hl : l1.lookup a = some b) :
    (l1 ++ l2).lookup a = some b := by
  induction l1 with
  | nil => simp [List.lookup] at hl
  | cons p rest ih =>
    cases hp : (a == p.1) with
    | true =>
      simp [List.lookup, hp] at hl ⊢
      exact hl
    | false =>
      simp [List.lookup, hp] at hl ⊢
      exact ih hl

theorem lookup_append_right {α β : Type} [BEq α] {l1 : List (α × β)}
    (l2 : List (α × β)) {a : α} (hl : l1.lookup a = none) :
    (l1 ++ l2).lookup a = l2.lookup a := by
  induction l1 with
  | nil => simp
  | cons p rest ih =>
    cases hp : (a == p.1) with
    | true => simp [List.lookup, hp] at hl
    | false =>
      simp [List.lookup, hp] at hl ⊢
      exact ih hl

/-! ### C7: all_clusters -/

theorem all_clusters_loop_fst (lc : String → ClustersResp) (regions : List String)
    (acc : List String) (s : EC2State) :
    (all_clusters_loop lc regions acc s).1
      = acc ++ regions.flatMap (fun r => (lc r).clusters) := by
  induction regions generalizing acc s with
  | nil => simp [all_clusters_loop]
  | cons r rest ih => simp [all_clusters_loop, ih, List.append_assoc]

/-- C7: `all_clusters` returns the concatenation, in region order, of the
`clusters` lists of the per-region `list_clusters()` responses; a cluster is in
the result exactly when some listed region's response contains it. -/
theorem all_clusters_concat_in_region_order (lc : String → ClustersResp)
    (regions : List String) (s : EC2State) :
    (all_clusters lc regions s).1 = regions.flatMap (fun r => (lc r).clusters) ∧
    ∀ c, c ∈ (all_clusters lc regions s).1 ↔ ∃ r ∈ regions, c ∈ (lc r).clusters := by
  have h := all_clusters_loop_fst lc regions [] s
  rw [all_clusters]
  refine ⟨by simpa using h, fun c => ?_⟩
  rw [h]
  simp [List.mem_flatMap]

/-! ### C8: delete_instance -/

/-- C8: when the `InstanceIds` filter query returns the empty list,
`delete_instance` terminates nothing (and raises nothing, the model being
total); when it returns a non-empty list, exactly the first element is
terminated. -/
theorem delete_instance_first_or_none (filterQ : String → List String)
    (instance_id : String) :
    (filterQ instance_id = [] → delete_instance filterQ instance_id = none) ∧
    (∀ x xs, filterQ instance_id = x :: xs →
      delete_instance filterQ instance_id = some x) := by
  constructor
  · intro h
    simp [delete_instance, h]
  · intro x xs h
    simp [delete_instance, h]

/-! ### C1: cleanup_all -/

theorem cleanup_images_loop_eq (p : String → Option MatchInfo) (l : List AwsImg)
    (acc : List Image) :
    cleanup_images_loop p l acc = acc ++
      l.filterMap (fun img => (p img.Name).map
        (fun m => ⟨img.Name, m.key, m.build, img.CreationDate, img.ImageId⟩)) := by
  induction l generalizing acc with
  | nil => simp [cleanup_images_loop]
  | cons img rest ih =>
    cases h : p img.Name with
    | none => simp [cleanup_images_loop, h, ih]
    | some m => simp [cleanup_images_loop, h, ih]

/-- C1: `cleanup_all` deregisters exactly the response images whose name
parses under `parse_image_name` and is not among the names returned by
`get_keeping_image_names`; an image whose name fails to parse is never even
among the candidate `Image` records (only an error is logged). -/
theorem cleanup_all_deregisters_exactly_unkept_parsed
    (p : String → Option MatchInfo) (k : List Image → List String)
    (resp : List AwsImg) :
    (∀ x, x ∈ cleanup_all p k resp ↔
      ∃ img ∈ resp, ∃ m, p img.Name = some m ∧
        img.Name ∉ k (cleanup_images_loop p resp []) ∧ x = img.ImageId) ∧
    (∀ img ∈ resp, p img.Name = none →
      ∀ i ∈ cleanup_images_loop p resp [], i.name ≠ img.Name) := by
  constructor
  · intro x
    simp only [cleanup_all, List.mem_map, List.mem_filter, List.mem_filterMap,
      cleanup_images_loop_eq, List.nil_append, Option.map_eq_some']
    constructor
    · rintro ⟨i, ⟨⟨img, himg, m, hm, hi⟩, hkeep⟩, hid⟩
      refine ⟨img, himg, m, hm, ?_, ?_⟩
      · subst hi
        simpa using hkeep
      · subst hi
        exact hid.symm
    · rintro ⟨img, himg, m, hm, hkeep, hx⟩
      refine ⟨⟨img.Name, m.key, m.build, img.CreationDate, img.ImageId⟩,
        ⟨⟨img, himg, m, hm, rfl⟩, ?_⟩, hx.symm⟩
      simpa using hkeep
  · intro img himg hnone i hi heq
    rw [cleanup_images_loop_eq, List.nil_append, List.mem_filterMap] at hi
    rcases hi with ⟨img2, _, hsome⟩
    rw [Option.map_eq_some'] at hsome
    rcases hsome with ⟨m, hm2, hbuild⟩
    have hname : i.name = img2.Name := by rw [← hbuild]
    rw [heq] at hname
    rw [hname, hm2] at hnone
    exact Option.noConfusion hnone

/-! ### ec2_client cache lemmas -/

theorem ec2_client_frame (s : EC2State) (r : String) :
    (ec2_client s r).2.key = s.key ∧ (ec2_client s r).2.secret = s.secret ∧
    (ec2_client s r).2.creds = s.creds ∧
    (ec2_client s r).2.ec2_resource = s.ec2_resource ∧
    (ec2_client s r).2.eks_client = s.eks_client := by
  cases h : s.ec2_client.lookup r <;> simp [ec2_client, h, boto3_client]

theorem ec2_client_preserves_entry (s : EC2State) (r r2 : String) (h2 : Handle)
    (hl : s.ec2_client.lookup r2 = some h2) :
    (ec2_client s r).2.ec2_client.lookup r2 = some h2 := by
  cases h : s.ec2_client.lookup r with
  | some hh => simpa [ec2_client, h] using hl
  | none =>
    simp [ec2_client, h, boto3_client]
    exact lookup_append_left _ hl

theorem ec2_client_lookup_self (s : EC2State) (r : String) :
    (ec2_client s r).2.ec2_client.lookup r = some (ec2_client s r).1 := by
  cases h : s.ec2_client.lookup r with
  | some hh => simp [ec2_client, h]
  | none =>
    simp [ec2_client, h, boto3_client]
    rw [lookup_append_right _ h]
    simp [List.lookup]

theorem ec2_client_of_lookup_some {s : EC2State} {r : String} {hh : Handle}
    (h : s.ec2_client.lookup r = some hh) : ec2_client s r = (hh, s) := by
  simp [ec2_client, h]

theorem ec2_client_idem_state (s : EC2State) (r : String) :
    (ec2_client (ec2_client s r).2 r).2 = (ec2_client s r).2 :=
  congrArg Prod.snd (ec2_client_of_lookup_some (ec2_client_lookup_self s r))

/-! ### check_credentials loop lemmas -/

theorem cc_loop_st (probe : Nat → Bool) (l : List Nat) (s : EC2State) (k : Nat)
    (hl : l ≠ []) :
    (cc_loop probe l s k).st = (ec2_client s defaultRegion).2 := by
  induction l generalizing s k with
  | nil => exact absurd rfl hl
  | cons i rest ih =>
    cases hp : probe i with
    | true => simp [cc_loop, hp, LoopRes.st]
    | false =>
      cases rest with
      | nil => simp [cc_loop, hp, LoopRes.st]
      | cons j t =>
        have step : cc_loop probe (i :: j :: t) s k
            = cc_loop probe (j :: t) (ec2_client s defaultRegion).2 (k + 1) := by
          simp [cc_loop, hp]
        rw [step, ih _ _ (by simp)]
        exact ec2_client_idem_state s defaultRegion

theorem cc_loop_slp_le (probe : Nat → Bool) (l : List Nat) (s : EC2State) (k : Nat) :
    (cc_loop probe l s k).slp ≤ k + l.length := by
  induction l generalizing s k with
  | nil => simp [cc_loop, LoopRes.slp]
  | cons i rest ih =>
    cases hp : probe i with
    | true => simp [cc_loop, hp, LoopRes.slp]
    | false =>
      have step : (cc_loop probe (i :: rest) s k).slp
          = (cc_loop probe rest (ec2_client s defaultRegion).2 (k + 1)).slp := by
        simp [cc_loop, hp]
      rw [step]
      have := ih (ec2_client s defaultRegion).2 (k + 1)
      simp only [List.length_cons]
      omega

theorem cc_loop_all_fail (probe : Nat → Bool) (l : List Nat) (s : EC2State) (k : Nat)
    (hall : ∀ i ∈ l, probe i = false) :
    ∃ s1, cc_loop probe l s k = .exhausted s1 (k + l.length) := by
  induction l generalizing s k with
  | nil => exact ⟨s, by simp [cc_loop]⟩
  | cons i rest ih =>
    have hp : probe i = false := hall i (by simp)
    have step : cc_loop probe (i :: rest) s k
        = cc_loop probe rest (ec2_client s defaultRegion).2 (k + 1) := by
      simp [cc_loop, hp]
    rcases ih (ec2_client s defaultRegion).2 (k + 1)
        (fun j hj => hall j (List.mem_cons_of_mem _ hj)) with ⟨s1, hs1⟩
    refine ⟨s1, ?_⟩
    rw [step, hs1]
    simp only [List.length_cons]
    congr 1
    omega

theorem cc_loop_success_iff (probe : Nat → Bool) (l : List Nat) (s : EC2State)
    (k : Nat) :
    (∃ s1 n, cc_loop probe l s k = .success s1 n) ↔ ∃ i ∈ l, probe i = true := by
  induction l generalizing s k with
  | nil => simp [cc_loop]
  | cons i rest ih =>
    cases hp : probe i with
    | true =>
      simp only [cc_loop, hp, if_true]
      constructor
      · intro _
        exact ⟨i, by simp, hp⟩
      · intro _
        exact ⟨_, _, rfl⟩
    | false =>
      have step : cc_loop probe (i :: rest) s k
          = cc_loop probe rest (ec2_client s defaultRegion).2 (k + 1) := by
        simp [cc_loop, hp]
      rw [step, ih]
      constructor
      · rintro ⟨j, hj, hpj⟩
        exact ⟨j, List.mem_cons_of_mem _ hj, hpj⟩
      · rintro ⟨j, hj, hpj⟩
        rcases List.mem_cons.mp hj with h | h
        · rw [h] at hpj
          rw [hpj] at hp
          exact absurd hp (by simp)
        · exact ⟨j, h, hpj⟩

theorem check_credentials_state (renew : Creds → Creds) (probe : Nat → Bool)
    (s : EC2State) :
    (check_credentials renew probe s).2.1
      = (ec2_client (cc_read_keys (cc_expiry_step renew s)) defaultRegion).2 := by
  unfold check_credentials
  have hst := cc_loop_st probe (List.range' 1 299)
    (cc_read_keys (cc_expiry_step renew s)) 0 (by decide)
  cases hres : cc_loop probe (List.range' 1 299)
      (cc_read_keys (cc_expiry_step renew s)) 0 with
  | success s1 n =>
    rw [hres] at hst
    simp only [LoopRes.st] at hst
    simp [hst]
  | exhausted s1 n =>
    rw [hres] at hst
    simp only [LoopRes.st] at hst
    cases hp : probe 300 with
    | true => simp [hp, hst, ec2_client_idem_state]
    | false => simp [hp, hst, ec2_client_idem_state]

/-! ### C2, C5, C6, C10: check_credentials -/

/-- C2: when the vault credentials report expired, `check_credentials` renews
them and resets key, secret and all three per-region caches to empty before
the new secret and access keys are read; in all cases the stored key and
secret are reassigned from the (current, possibly renewed) vault data, and
they still hold those values when the method ends. -/
theorem check_credentials_renews_resets_then_reads (renew : Creds → Creds)
    (probe : Nat → Bool) (s : EC2State) :
    (s.creds.expired = true →
      (cc_expiry_step renew s).creds = renew s.creds ∧
      (cc_expiry_step renew s).key = none ∧
      (cc_expiry_step renew s).secret = none ∧
      (cc_expiry_step renew s).ec2_resource = [] ∧
      (cc_expiry_step renew s).ec2_client = [] ∧
      (cc_expiry_step renew s).eks_client = []) ∧
    (cc_read_keys (cc_expiry_step renew s)).secret
      = some (cc_expiry_step renew s).creds.secretKey ∧
    (cc_read_keys (cc_expiry_step renew s)).key
      = some (cc_expiry_step renew s).creds.accessKey ∧
    (check_credentials renew probe s).2.1.key
      = some (cc_expiry_step renew s).creds.accessKey ∧
    (check_credentials renew probe s).2.1.secret
      = some (cc_expiry_step renew s).creds.secretKey := by
  refine ⟨fun h => ?_, rfl, rfl, ?_, ?_⟩
  · simp [cc_expiry_step, h]
  · rw [check_credentials_state]
    rw [(ec2_client_frame (cc_read_keys (cc_expiry_step renew s)) defaultRegion).1]
    rfl
  · rw [check_credentials_state]
    rw [(ec2_client_frame (cc_read_keys (cc_expiry_step renew s)) defaultRegion).2.1]
    rfl

/-- C5: the credential-probe retry loop terminates after at most 299 attempts
(`range(1, 60 * 5)`), sleeping one fixed second after each failed attempt; if
every probe fails, exactly 299 seconds are slept and control reaches the final
unguarded call (the method does not return `True`). -/
theorem check_credentials_retry_terminates (renew : Creds → Creds)
    (probe : Nat → Bool) (s : EC2State) :
    (check_credentials renew probe s).2.2 ≤ 299 ∧
    ((∀ i, 1 ≤ i → i ≤ 299 → probe i = false) →
      (check_credentials renew probe s).2.2 = 299 ∧
      (check_credentials renew probe s).1 ≠ CCOut.retTrue) := by
  constructor
  · unfold check_credentials
    have hle := cc_loop_slp_le probe (List.range' 1 299)
      (cc_read_keys (cc_expiry_step renew s)) 0
    cases hres : cc_loop probe (List.range' 1 299)
        (cc_read_keys (cc_expiry_step renew s)) 0 with
    | success s1 n =>
      rw [hres] at hle
      simp only [LoopRes.slp, List.length_range'] at hle
      simp only [hres]
      simpa using hle
    | exhausted s1 n =>
      rw [hres] at hle
      simp only [LoopRes.slp, List.length_range'] at hle
      simp only [hres]
      cases hp : probe 300 <;> simpa [hp] using hle
  · intro hall
    have hall2 : ∀ i ∈ List.range' 1 299, probe i = false := by
      intro i hi
      rw [List.mem_range'_1] at hi
      exact hall i hi.1 (by omega)
    rcases cc_loop_all_fail probe (List.range' 1 299)
      (cc_read_keys (cc_expiry_step renew s)) 0 hall2 with ⟨s1, hs1⟩
    unfold check_credentials
    rw [hs1]
    cases hp : probe 300 <;> simp [hp]

/-- C6: if every probe attempt inside the retry loop fails, control reaches
the final `all_regions()` call outside any exception handler, and that call's
exception (a failing probe number 300) is what propagates: the method ends in
the raised outcome exactly when the final call fails. -/
theorem check_credentials_final_call_propagates (renew : Creds → Creds)
    (probe : Nat → Bool) (s : EC2State)
    (hall : ∀ i, 1 ≤ i → i ≤ 299 → probe i = false) :
    ((check_credentials renew probe s).1 = CCOut.raised ↔ probe 300 = false) := by
  have hall2 : ∀ i ∈ List.range' 1 299, probe i = false := by
    intro i hi
    rw [List.mem_range'_1] at hi
    exact hall i hi.1 (by omega)
  rcases cc_loop_all_fail probe (List.range' 1 299)
    (cc_read_keys (cc_expiry_step renew s)) 0 hall2 with ⟨s1, hs1⟩
  unfold check_credentials
  rw [hs1]
  cases hp : probe 300 <;> simp [hp]

theorem check_credentials_final_call_propagates_witness :
    ((check_credentials (fun c => c) (fun _ => false) sampleState).1 = CCOut.raised
      ↔ (fun _ : Nat => false) 300 = false) :=
  check_credentials_final_call_propagates (fun c => c) (fun _ => false) sampleState
    (fun _ _ _ => rfl)

/-- C10: `check_credentials` returns `True` exactly when some probe attempt of
the retry loop succeeds; when all 299 attempts fail but the final unguarded
call succeeds, the method falls off the end and returns `None`, not `True`. -/
theorem check_credentials_true_iff_probe_success (renew : Creds → Creds)
    (probe : Nat → Bool) (s : EC2State) :
    ((check_credentials renew probe s).1 = CCOut.retTrue ↔
      ∃ i, 1 ≤ i ∧ i ≤ 299 ∧ probe i = true) ∧
    ((∀ i, 1 ≤ i → i ≤ 299 → probe i = false) → probe 300 = true →
      (check_credentials renew probe s).1 = CCOut.retNone) := by
  have hmem : ∀ i : Nat, i ∈ List.range' 1 299 ↔ (1 ≤ i ∧ i ≤ 299) := by
    intro i
    rw [List.mem_range'_1]
    omega
  constructor
  · unfold check_credentials
    cases hres : cc_loop probe (List.range' 1 299)
        (cc_read_keys (cc_expiry_step renew s)) 0 with
    | success s1 n =>
      have hex : ∃ i ∈ List.range' 1 299, probe i = true :=
        (cc_loop_success_iff probe _ _ _).mp ⟨s1, n, hres⟩
      rcases hex with ⟨i, hi, hpi⟩
      simp only [hres]
      constructor
      · intro _
        exact ⟨i, ((hmem i).mp hi).1, ((hmem i).mp hi).2, hpi⟩
      · intro _
        trivial
    | exhausted s1 n =>
      have hnex : ¬ ∃ i ∈ List.range' 1 299, probe i = true := by
        intro hex
        rcases (cc_loop_success_iff probe (List.range' 1 299)
          (cc_read_keys (cc_expiry_step renew s)) 0).mpr hex with ⟨s2, m, hs2⟩
        rw [hres] at hs2
        exact LoopRes.noConfusion hs2
      simp only [hres]
      constructor
      · intro h
        cases hp : probe 300 with
        | true =>
          rw [hp] at h
          simp at h
        | false =>
          rw [hp] at h
          simp at h
      · rintro ⟨i, h1, h2, hpi⟩
        exact absurd ⟨i, (hmem i).mpr ⟨h1, h2⟩, hpi⟩ hnex
  · intro hall hp
    have hall2 : ∀ i ∈ List.range' 1 299, probe i = false := by
      intro i hi
      exact hall i ((hmem i).mp hi).1 ((hmem i).mp hi).2
    rcases cc_loop_all_fail probe (List.range' 1 299)
      (cc_read_keys (cc_expiry_step renew s)) 0 hall2 with ⟨s1, hs1⟩
    unfold check_credentials
    rw [hs1]
    simp [hp]

/-! ### C4: lazy construction and caching of the per-region handles -/

/-- C4: for each of `ec2_client`, `eks_client` and `ec2_resource`, the first
call for a region constructs a fresh boto3 handle from the stored key/secret
(consuming one allocation number) and stores it under that region, and every
later call with the same region returns the stored handle with the state
(including the allocation counter) unchanged: nothing new is constructed. -/
theorem clients_construct_lazily_and_cache (s : EC2State) (region : String) :
    ((s.ec2_client.lookup region = none →
        (ec2_client s region).1
          = ⟨"client", "ec2", s.key, s.secret, region, s.nextId⟩ ∧
        (ec2_client s region).2.nextId = s.nextId + 1 ∧
        (ec2_client s region).2.ec2_client.lookup region
          = some (ec2_client s region).1) ∧
      ∀ hh, s.ec2_client.lookup region = some hh → ec2_client s region = (hh, s)) ∧
    ((s.eks_client.lookup region = none →
        (eks_client s region).1
          = ⟨"client", "eks", s.key, s.secret, region, s.nextId⟩ ∧
        (eks_client s region).2.nextId = s.nextId + 1 ∧
        (eks_client s region).2.eks_client.lookup region
          = some (eks_client s region).1) ∧
      ∀ hh, s.eks_client.lookup region = some hh → eks_client s region = (hh, s)) ∧
    ((s.ec2_resource.lookup region = none →
        (ec2_resource s region).1
          = ⟨"resource", "ec2", s.key, s.secret, region, s.nextId⟩ ∧
        (ec2_resource s region).2.nextId = s.nextId + 1 ∧
        (ec2_resource s region).2.ec2_resource.lookup region
          = some (ec2_resource s region).1) ∧
      ∀ hh, s.ec2_resource.lookup region = some hh →
        ec2_resource s region = (hh, s)) := by
  refine ⟨⟨fun h => ⟨?_, ?_, ec2_client_lookup_self s region⟩, fun hh hs => ?_⟩,
    ⟨fun h => ⟨?_, ?_, ?_⟩, fun hh hs => ?_⟩,
    ⟨fun h => ⟨?_, ?_, ?_⟩, fun hh hs => ?_⟩⟩
  · simp [ec2_client, h, boto3_client]
  · simp [ec2_client, h, boto3_client]
  · simp [ec2_client, hs]
  · simp [eks_client, h, boto3_client]
  · simp [eks_client, h, boto3_client]
  · simp [eks_client, h, boto3_client]
    rw [lookup_append_right _ h]
    simp [List.lookup]
  · simp [eks_client, hs]
  · simp [ec2_resource, h, boto3_resource]
  · simp [ec2_resource, h, boto3_resource]
  · simp [ec2_resource, h, boto3_resource]
    rw [lookup_append_right _ h]
    simp [List.lookup]
  · simp [ec2_resource, hs]

/-! ### C9: what check_credentials does to the caches when not expired -/

/-- C9 as stated is false: even with unexpired credentials, the probe loop's
`self.all_regions()` goes through `self.ec2_client()`, which lazily adds the
default-region ec2 client to the cache when it is absent.  Concretely: from a
state with empty caches and unexpired credentials, a first successful probe
still leaves a changed ec2-client cache. -/
theorem check_credentials_caches_unchanged_cex :
    sampleState.creds.expired = false ∧
    (check_credentials (fun c => c) (fun _ => true) sampleState).2.1.ec2_client
      ≠ sampleState.ec2_client := by
  refine ⟨rfl, ?_⟩
  rw [check_credentials_state]
  intro hcontra
  have hself := ec2_client_lookup_self
    (cc_read_keys (cc_expiry_step (fun c => c) sampleState)) defaultRegion
  rw [hcontra] at hself
  simp [sampleState, List.lookup] at hself

/-- C9 amended: when the credentials are not expired, `check_credentials`
never clears anything: the credential object, the ec2-resource cache and the
eks-client cache are left unchanged, the key and secret are merely reassigned
from the vault data, and every previously cached ec2 client entry is still
present afterwards (so previously constructed handles keep being reused); the
only possible cache change is the lazy addition of the default-region ec2
client by the probe. -/
theorem check_credentials_not_expired_frame (renew : Creds → Creds)
    (probe : Nat → Bool) (s : EC2State) (r : String) (hh : Handle)
    (hexp : s.creds.expired = false)
    (hcached : s.ec2_client.lookup r = some hh) :
    (check_credentials renew probe s).2.1.creds = s.creds ∧
    (check_credentials renew probe s).2.1.ec2_resource = s.ec2_resource ∧
    (check_credentials renew probe s).2.1.eks_client = s.eks_client ∧
    (check_credentials renew probe s).2.1.key = some s.creds.accessKey ∧
    (check_credentials renew probe s).2.1.secret = some s.creds.secretKey ∧
    (check_credentials renew probe s).2.1.ec2_client.lookup r = some hh := by
  have hes : cc_expiry_step renew s = s := by simp [cc_expiry_step, hexp]
  rw [check_credentials_state, hes]
  have hf := ec2_client_frame (cc_read_keys s) defaultRegion
  refine ⟨?_, ?_, ?_, ?_, ?_, ?_⟩
  · rw [hf.2.2.1]
    rfl
  · rw [hf.2.2.2.1]
    rfl
  · rw [hf.2.2.2.2]
    rfl
  · rw [hf.1]
    rfl
  · rw [hf.2.1]
    rfl
  · exact ec2_client_preserves_entry _ _ _ _ hcached

theorem check_credentials_not_expired_frame_witness :
    (check_credentials (fun c => c) (fun _ => true) cachedState).2.1.creds
      = cachedState.creds ∧
    (check_credentials (fun c => c) (fun _ => true) cachedState).2.1.ec2_resource
      = cachedState.ec2_resource ∧
    (check_credentials (fun c => c) (fun _ => true) cachedState).2.1.eks_client
      = cachedState.eks_client ∧
    (check_credentials (fun c => c) (fun _ => true) cachedState).2.1.key
      = some cachedState.creds.accessKey ∧
    (check_credentials (fun c => c) (fun _ => true) cachedState).2.1.secret
      = some cachedState.creds.secretKey ∧
    (check_credentials (fun c => c) (fun _ => true)
        cachedState).2.1.ec2_client.lookup "eu-central-1" = some sampleHandle :=
  check_credentials_not_expired_frame (fun c => c) (fun _ => true) cachedState
    "eu-central-1" sampleHandle rfl (by decide)

/-! ### C3: one provider instance per vault namespace -/

theorem lookup_mem_snd {α β : Type} [BEq α] {l : List (α × β)} {a : α} {b : β}
    (h : l.lookup a = some b) : b ∈ l.map Prod.snd := by
  induction l with
  | nil => simp [List.lookup] at h
  | cons p rest ih =>
    cases hp : (a == p.1) with
    | true =>
      simp [List.lookup, hp] at h
      simp [h]
    | false =>
      simp [List.lookup, hp] at h
      simp [ih h]

theorem lookup_ne_of_nodup_snd {l : List (String × Nat)} {a1 a2 : String}
    {b1 b2 : Nat} (hnd : (l.map Prod.snd).Nodup) (hne : a1 ≠ a2)
    (h1 : l.lookup a1 = some b1) (h2 : l.lookup a2 = some b2) : b1 ≠ b2 := by
  induction l with
  | nil => simp [List.lookup] at h1
  | cons p rest ih =>
    rw [List.map_cons, List.nodup_cons] at hnd
    cases hp1 : (a1 == p.1) with
    | true =>
      simp [List.lookup, hp1] at h1
      cases hp2 : (a2 == p.1) with
      | true => exact absurd ((eq_of_beq hp1).trans (eq_of_beq hp2).symm) hne
      | false =>
        simp [List.lookup, hp2] at h2
        intro heq
        apply hnd.1
        rw [h1, heq]
        exact lookup_mem_snd h2
    | false =>
      simp [List.lookup, hp1] at h1
      cases hp2 : (a2 == p.1) with
      | true =>
        simp [List.lookup, hp2] at h2
        intro heq
        apply hnd.1
        rw [h2, ← heq]
        exact lookup_mem_snd h1
      | false =>
        simp [List.lookup, hp2] at h2
        exact ih hnd.2 h1 h2

theorem lookup_lt_nextInst {reg : Registry} {a : String} {i : Nat}
    (hinv : reg.Inv) (h : reg.instances.lookup a = some i) : i < reg.nextInst := by
  have hmem := lookup_mem_snd h
  rw [List.mem_map] at hmem
  rcases hmem with ⟨p, hp, hpe⟩
  have := hinv.1 p hp
  omega

theorem EC2_new_of_lookup_some {reg : Registry} {ns : String} {i : Nat}
    (h : reg.instances.lookup ns = some i) : EC2_new reg ns = (i, reg) := by
  simp [EC2_new, h]

theorem EC2_new_lookup_self (reg : Registry) (ns : String) :
    (EC2_new reg ns).2.instances.lookup ns = some (EC2_new reg ns).1 := by
  cases h : reg.instances.lookup ns with
  | some i => simp [EC2_new, h]
  | none =>
    simp [EC2_new, h]
    rw [lookup_append_right _ h]
    simp [List.lookup]

/-- C3: constructing `EC2(vault_namespace)` the first time caches a fresh
instance under the namespace; every later construction with the same
namespace returns the cached instance and leaves the registry unchanged;
constructions under distinct namespaces yield distinct instances. -/
theorem EC2_singleton_per_namespace (reg : Registry) (ns1 ns2 : String)
    (hinv : reg.Inv) :
    (reg.instances.lookup ns1 = none →
      (EC2_new reg ns1).1 = reg.nextInst ∧
      (EC2_new reg ns1).2.instances.lookup ns1 = some (EC2_new reg ns1).1) ∧
    (EC2_new (EC2_new reg ns1).2 ns1).1 = (EC2_new reg ns1).1 ∧
    (EC2_new (EC2_new reg ns1).2 ns1).2 = (EC2_new reg ns1).2 ∧
    (ns1 ≠ ns2 → (EC2_new (EC2_new reg ns1).2 ns2).1 ≠ (EC2_new reg ns1).1) := by
  refine ⟨fun h => ⟨by simp [EC2_new, h], EC2_new_lookup_self reg ns1⟩,
    congrArg Prod.fst (EC2_new_of_lookup_some (EC2_new_lookup_self reg ns1)),
    congrArg Prod.snd (EC2_new_of_lookup_some (EC2_new_lookup_self reg ns1)), ?_⟩
  intro hne heq
  cases h1 : reg.instances.lookup ns1 with
  | some i1 =>
    have e1 : EC2_new reg ns1 = (i1, reg) := EC2_new_of_lookup_some h1
    rw [e1] at heq
    cases h2 : reg.instances.lookup ns2 with
    | some i2 =>
      have e2 : EC2_new reg ns2 = (i2, reg) := EC2_new_of_lookup_some h2
      rw [e2] at heq
      have hne12 : i2 ≠ i1 := lookup_ne_of_nodup_snd hinv.2.2 (Ne.symm hne) h2 h1
      exact hne12 heq
    | none =>
      have e2 : (EC2_new reg ns2).1 = reg.nextInst := by simp [EC2_new, h2]
      rw [e2] at heq
      have := lookup_lt_nextInst hinv h1
      omega
  | none =>
    have e1fst : (EC2_new reg ns1).1 = reg.nextInst := by simp [EC2_new, h1]
    have e1snd : (EC2_new reg ns1).2
        = ⟨reg.instances ++ [(ns1, reg.nextInst)], reg.nextInst + 1⟩ := by
      simp [EC2_new, h1]
    rw [e1fst, e1snd] at heq
    cases ho : reg.instances.lookup ns2 with
    | some i =>
      have hl2 : (reg.instances ++ [(ns1, reg.nextInst)]).lookup ns2 = some i :=
        lookup_append_left _ ho
      have e2 := @EC2_new_of_lookup_some
        ⟨reg.instances ++ [(ns1, reg.nextInst)], reg.nextInst + 1⟩ ns2 i hl2
      rw [e2] at heq
      have heq2 : i = reg.nextInst := heq
      have := lookup_lt_nextInst hinv ho
      omega
    | none =>
      have hbeq : (ns2 == ns1) = false := by
        cases hb : (ns2 == ns1) with
        | true => exact absurd (eq_of_beq hb).symm hne
        | false => rfl
      have hl2 : (reg.instances ++ [(ns1, reg.nextInst)]).lookup ns2 = none := by
        rw [lookup_append_right _ ho]
        simp [List.lookup, hbeq]
      have e2 : (EC2_new
          (⟨reg.instances ++ [(ns1, reg.nextInst)], reg.nextInst + 1⟩ : Registry)
          ns2).1 = reg.nextInst + 1 := by
        simp [EC2_new, hl2]
      rw [e2] at heq
      omega

theorem EC2_singleton_per_namespace_witness :
    ((Registry.mk [] 0).instances.lookup "a" = none →
      (EC2_new ⟨[], 0⟩ "a").1 = (Registry.mk [] 0).nextInst ∧
      (EC2_new ⟨[], 0⟩ "a").2.instances.lookup "a" = some (EC2_new ⟨[], 0⟩ "a").1) ∧
    (EC2_new (EC2_new ⟨[], 0⟩ "a").2 "a").1 = (EC2_new ⟨[], 0⟩ "a").1 ∧
    (EC2_new (EC2_new ⟨[], 0⟩ "a").2 "a").2 = (EC2_new ⟨[], 0⟩ "a").2 ∧
    ("a" ≠ "b" → (EC2_new (EC2_new ⟨[], 0⟩ "a").2 "b").1 ≠ (EC2_new ⟨[], 0⟩ "a").1) :=
  EC2_singleton_per_namespace ⟨[], 0⟩ "a" "b" ⟨by simp, by simp, by simp⟩
